import Mathlib

/-!
# Verification of the hydro template core

Shallow embedding of `hydro/template/template_item.py` and
`hydro/template/template_tree.py`, together with proofs of the spec's
testable properties.
-/

namespace Hydro

/-- Characters matched by the character class from the source regex
`(?!{)[A-z]+(?=[}\:])` in `HydroTemplateObject.build_path`: the ASCII span
from `A` (65) to `z` (122), i.e. letters plus `[`, `\`, `]`, `^`, `_`
and the backquote.  The leading `(?!{)` lookahead is vacuous because
`{` (123) is outside this span. -/
def isAz (c : Char) : Bool := 'A' ≤ c && c ≤ 'z'

/-- Characters matched by the trailing lookahead `(?=[}\:])`. -/
def isStop (c : Char) : Bool := c = '}' || c = ':'

/-- One step of `re.findall(r'(?!{)[A-z]+(?=[}\:])', s)`, as a
left-to-right scan.  The first argument is the `[A-z]` run collected so
far (reversed), `none` when not inside a run.  The engine attempts a
match at each position; a match succeeds exactly when a maximal nonempty
`[A-z]` run is followed by `}` or `:` (backtracking to a shorter run
cannot help, since no `[A-z]` character is `}` or `:`, and after a failed
run no suffix of it can match either, for the same reason).  On success
the scan resumes at the lookahead character, which — not being in
`[A-z]` — cannot start a new match, so it is consumed. -/
def scanAux : Option (List Char) → List Char → List String
  | none, [] => []
  | none, c :: rest =>
    if isAz c then scanAux (some [c]) rest else scanAux none rest
  | some _, [] => []
  | some acc, c :: rest =>
    if isAz c then scanAux (some (c :: acc)) rest
    else if isStop c then String.mk acc.reverse :: scanAux none rest
    else scanAux none rest

/-- `re.findall(r'(?!{)[A-z]+(?=[}\:])', s)` on the character list of
`s` — the scan on line 44 of template_item.py.  The leading `(?!{)` is
vacuous (see `isAz`). -/
def scanTokens (l : List Char) : List String :=
  scanAux none l

/-- Token values supplied by callers.  The subset of Python values the
templates use (strings and integers), per the patterns in the schema and
tests. -/
inductive PyValue where
  | str (s : String)
  | int (n : Int)
deriving DecidableEq, Repr

/-- The `tokens` argument of `build_path`.  Python accepts any object and
checks `isinstance(tokens, dict)` first; everything that is not a dict is
collapsed into one constructor since the code rejects it uniformly. -/
inductive PyArg where
  | dict (m : List (String × PyValue))
  | nonDict
deriving DecidableEq, Repr

/-- Errors raised by the embedded code, one constructor per raise site. -/
inductive PyErr where
  /-- `TypeError` from line 36 of template_item.py: tokens not a dict. -/
  | typeErrorTokens
  /-- `TypeError` from `re.findall` when `self._name` is not a string
  (possible when a schema `naming` override is a non-string value). -/
  | typeErrorPattern
  /-- `HydroTemplateTokenNotSpecifiedException`: carries the missing token
  names (in scan-encounter order, duplicates kept) and the offending
  pattern, exactly the data the exception message enumerates. -/
  | missingTokens (missing : List String) (template : String)
  /-- `KeyError` from `str.format`: a replacement-field name with no
  matching keyword argument. -/
  | keyError (k : String)
  /-- `IndexError` from `str.format`: an empty or all-digit field name is
  positional / auto-numbered, and `format(**tokens)` passes no positional
  arguments. -/
  | indexError
  /-- `ValueError` from `str.format`: malformed format string (single
  brace, unterminated field, brace in a field name). -/
  | valueError
  /-- Format specifier outside the modelled subset (the spec, section 9,
  limits the mini-language to name lookup plus optional width padding). -/
  | unsupportedSpec (spec : String)
  /-- `KeyError` from line 119 of template_tree.py: unknown context key. -/
  | keyNotFound (k : String)
  /-- `HydroTemplateSchemaFileNotSpecifiedException` from line 32 of
  template_tree.py. -/
  | noSchemaSource
  /-- `AttributeError`: `.items()` called on a non-dict during tree
  processing, or `.items()` on a non-dict schema root. -/
  | attributeError
  /-- `TypeError`: iterating a non-iterable value during tree processing. -/
  | typeErrorNotIterable
deriving DecidableEq, Repr

deriving instance DecidableEq for Except

/-- Left-pad a string with copies of `c` to width `w`. -/
def leftPad (c : Char) (w : Nat) (s : String) : String :=
  String.mk (List.replicate (w - s.length) c) ++ s

/-- Python `format(n, '0W')` for an integer: zero-pad to total width `w`,
with the minus sign (if any) ahead of the padding. -/
def zeroPadInt (w : Nat) (n : Int) : String :=
  if n < 0 then "-" ++ leftPad '0' (w - 1) (toString (-n))
  else leftPad '0' w (toString n)

/-- Apply a format specifier to a value, as `str.format` would.  Modelled
subset (spec section 9): empty spec; for integers also a plain width
(right-aligned, space-padded — the numeric default) and a zero-padded
width.  Anything else is reported as outside the model. -/
def applySpec (spec : String) (v : PyValue) : Except PyErr String :=
  match v with
  | .str s => if spec = "" then .ok s else .error (.unsupportedSpec spec)
  | .int n =>
    if spec = "" then .ok (toString n)
    else
      match spec.data with
      | '0' :: ds =>
        if ds ≠ [] ∧ ds.all (·.isDigit) then
          .ok (zeroPadInt ((String.mk ds).toNat?.getD 0) n)
        else .error (.unsupportedSpec spec)
      | ds =>
        if ds ≠ [] ∧ ds.all (·.isDigit) then
          .ok (leftPad ' ' ((String.mk ds).toNat?.getD 0) (toString n))
        else .error (.unsupportedSpec spec)

/-- First-match lookup in an association list; the model of Python dict
indexing (keys are unique in a real dict, so first match is the match). -/
def lookupVal (m : List (String × PyValue)) (k : String) : Option PyValue :=
  (m.find? (fun e => e.1 = k)).map (fun e => e.2)

/-- Resolve one replacement field `{name:spec}` against the keyword
arguments, as `str.format(**tokens)` does: empty or all-digit names are
positional / auto-numbered and raise `IndexError` (no positional
arguments are passed); otherwise the name is looked up among the keyword
arguments (`KeyError` when absent) and the specifier is applied. -/
def substField (tokens : List (String × PyValue)) (name spec : String) :
    Except PyErr String :=
  if name = "" ∨ (name.data ≠ [] ∧ name.data.all (·.isDigit)) then
    .error .indexError
  else
    match lookupVal tokens name with
    | none => .error (.keyError name)
    | some v => applySpec spec v

/-- Parser state of the `str.format` scan: in literal text, collecting a
field name, or collecting a format specifier for a named field. -/
inductive FmtMode where
  | lit
  | fname (acc : List Char)
  | fspec (fieldName : String) (acc : List Char)
deriving DecidableEq, Repr

/-- The `str.format` scan over the pattern, one character at a time.
Literal mode copies characters, doubling `{{` and `}}` into single
braces, and rejects a lone `}` (`ValueError`); `{` opens a field.  Name
mode collects the field name up to `:` (specifier follows) or `}` (field
ends); a `{` inside a field name is a `ValueError`, and a pattern ending
mid-field is a `ValueError`.  Spec mode collects the specifier up to the
closing `}`.  A completed field is substituted via `substField`. -/
def fmtRun (tokens : List (String × PyValue)) : FmtMode → List Char →
    Except PyErr String
  | .lit, [] => .ok ""
  | .lit, '{' :: '{' :: rest2 => (fun s => "\x7b" ++ s) <$> fmtRun tokens .lit rest2
  | .lit, '{' :: rest => fmtRun tokens (.fname []) rest
  | .lit, '}' :: '}' :: rest2 => (fun s => "\x7d" ++ s) <$> fmtRun tokens .lit rest2
  | .lit, '}' :: _ => .error .valueError
  | .lit, c :: rest => (fun s => String.mk [c] ++ s) <$> fmtRun tokens .lit rest
  | .fname _, [] => .error .valueError
  | .fname _, '{' :: _ => .error .valueError
  | .fname acc, ':' :: rest => fmtRun tokens (.fspec (String.mk acc.reverse) []) rest
  | .fname acc, '}' :: rest => do
    let piece ← substField tokens (String.mk acc.reverse) ""
    let tail ← fmtRun tokens .lit rest
    .ok (piece ++ tail)
  | .fname acc, c :: rest => fmtRun tokens (.fname (c :: acc)) rest
  | .fspec _ _, [] => .error .valueError
  | .fspec fieldName acc, '}' :: rest => do
    let piece ← substField tokens fieldName (String.mk acc.reverse)
    let tail ← fmtRun tokens .lit rest
    .ok (piece ++ tail)
  | .fspec fieldName acc, c :: rest => fmtRun tokens (.fspec fieldName (c :: acc)) rest

/-- `pattern.format(**tokens)` for the modelled subset. -/
def pyFormat (tokens : List (String × PyValue)) (pattern : String) :
    Except PyErr String :=
  fmtRun tokens .lit pattern.data

/-- The replacement-field names the `str.format` scan consults, in
encounter order: the same traversal as `fmtRun`, collecting each field
name when its field completes instead of substituting it. -/
def fmtNames : FmtMode → List Char → List String
  | .lit, [] => []
  | .lit, '{' :: '{' :: rest2 => fmtNames .lit rest2
  | .lit, '{' :: rest => fmtNames (.fname []) rest
  | .lit, '}' :: '}' :: rest2 => fmtNames .lit rest2
  | .lit, '}' :: _ => []
  | .lit, _ :: rest => fmtNames .lit rest
  | .fname _, [] => []
  | .fname _, '{' :: _ => []
  | .fname acc, ':' :: rest => fmtNames (.fspec (String.mk acc.reverse) []) rest
  | .fname acc, '}' :: rest => String.mk acc.reverse :: fmtNames .lit rest
  | .fname acc, c :: rest => fmtNames (.fname (c :: acc)) rest
  | .fspec _ _, [] => []
  | .fspec fieldName _, '}' :: rest => fieldName :: fmtNames .lit rest
  | .fspec fieldName acc, c :: rest => fmtNames (.fspec fieldName (c :: acc)) rest

theorem substField_agree (m1 m2 : List (String × PyValue))
    (name spec : String) (h : lookupVal m1 name = lookupVal m2 name) :
    substField m1 name spec = substField m2 name spec := by
  unfold substField
  rw [h]

theorem fmtRun_agree (m1 m2 : List (String × PyValue)) (mode : FmtMode)
    (l : List Char) :
    (∀ n ∈ fmtNames mode l, lookupVal m1 n = lookupVal m2 n) →
    fmtRun m1 mode l = fmtRun m2 mode l := by
  induction mode, l using fmtRun.induct with
  | tokens => exact m1
  | case1 => intro _; rfl
  | case2 rest2 ih =>
    intro h
    have hih := ih (fun n hn => h n (by rw [fmtNames.eq_2]; exact hn))
    rw [fmtRun.eq_2, fmtRun.eq_2, hih]
  | case3 rest hne ih =>
    intro h
    rw [fmtRun.eq_3 _ _ hne, fmtRun.eq_3 _ _ hne]
    exact ih (fun n hn => h n (by rw [fmtNames.eq_3 _ hne]; exact hn))
  | case4 rest2 ih =>
    intro h
    have hih := ih (fun n hn => h n (by rw [fmtNames.eq_4]; exact hn))
    rw [fmtRun.eq_4, fmtRun.eq_4, hih]
  | case5 tail hne =>
    intro _
    rw [fmtRun.eq_5 _ _ hne, fmtRun.eq_5 _ _ hne]
  | case6 c rest g1 g2 g3 g4 ih =>
    intro h
    have hih := ih (fun n hn => h n (by rw [fmtNames.eq_6 _ _ g1 g2 g3 g4]; exact hn))
    rw [fmtRun.eq_6 _ _ _ g1 g2 g3 g4, fmtRun.eq_6 _ _ _ g1 g2 g3 g4, hih]
  | case7 acc =>
    intro _
    rw [fmtRun.eq_7, fmtRun.eq_7]
  | case8 acc tail =>
    intro _
    rw [fmtRun.eq_8, fmtRun.eq_8]
  | case9 acc rest ih =>
    intro h
    rw [fmtRun.eq_9, fmtRun.eq_9]
    exact ih (fun n hn => h n (by rw [fmtNames.eq_9]; exact hn))
  | case10 acc rest ih =>
    intro h
    have hsub : substField m1 (String.mk acc.reverse) "" =
        substField m2 (String.mk acc.reverse) "" :=
      substField_agree m1 m2 _ ""
        (h _ (by rw [fmtNames.eq_10]; exact List.mem_cons_self _ _))
    have hih := ih (fun n hn =>
      h n (by rw [fmtNames.eq_10]; exact List.mem_cons_of_mem _ hn))
    rw [fmtRun.eq_10, fmtRun.eq_10, hsub, hih]
  | case11 acc c rest g1 g2 g3 ih =>
    intro h
    rw [fmtRun.eq_11 _ _ _ _ g1 g2 g3, fmtRun.eq_11 _ _ _ _ g1 g2 g3]
    exact ih (fun n hn => h n (by rw [fmtNames.eq_11 _ _ _ g1 g2 g3]; exact hn))
  | case12 fieldName acc =>
    intro _
    rw [fmtRun.eq_12, fmtRun.eq_12]
  | case13 fieldName acc rest ih =>
    intro h
    have hsub : substField m1 fieldName (String.mk acc.reverse) =
        substField m2 fieldName (String.mk acc.reverse) :=
      substField_agree m1 m2 _ _
        (h _ (by rw [fmtNames.eq_13]; exact List.mem_cons_self _ _))
    have hih := ih (fun n hn =>
      h n (by rw [fmtNames.eq_13]; exact List.mem_cons_of_mem _ hn))
    rw [fmtRun.eq_13, fmtRun.eq_13, hsub, hih]
  | case14 fieldName acc c rest g ih =>
    intro h
    rw [fmtRun.eq_14 _ _ _ _ _ g, fmtRun.eq_14 _ _ _ _ _ g]
    exact ih (fun n hn => h n (by rw [fmtNames.eq_14 _ _ _ _ g]; exact hn))

/-- Scalar or nested value from the parsed YAML schema document. -/
inductive SVal where
  | dict (entries : List (String × SVal))
  | list (items : List SVal)
  | str (s : String)
  | bool (b : Bool)
  | int (n : Int)
  | null

/-- `HydroTemplateObject` (template_item.py): one item on disk.  `name`
is stored as the raw schema value, as in the source (a non-string
`naming` override is stored unchecked and only fails at resolution
time); `preserve` is stored as its truth value, since both uses in the
source (`if not self._preserve`, `if not preserve`) only test truthiness;
`parentItem` is the optional parent in the hierarchy. -/
inductive HTO where
  | mk (name : SVal) (preserve : Bool) (parentItem : Option HTO)

/-- The `_name` field. -/
def HTO.name : HTO → SVal
  | .mk n _ _ => n

/-- The `_preserve` field (truth value). -/
def HTO.preserve : HTO → Bool
  | .mk _ p _ => p

/-- The `_parent_item` field. -/
def HTO.parentItem : HTO → Option HTO
  | .mk _ _ p => p

/-- `os.path.join(a, b)` for two relative-or-absolute POSIX components,
as the source uses it (`os.path.join(object_name, child_path)` and
`os.path.join(self._template_tree_root, ...)`). -/
def osJoin (a b : String) : String :=
  if b.startsWith "/" then b
  else if a = "" || a.endsWith "/" then a ++ b
  else a ++ "/" ++ b

/-- Lines 38–76 of template_item.py: compute `object_name` (the node's
own substituted segment) for a node with pattern value `name` and
preserve flag `preserve`, given that `tokens` passed the dict check.
The regex scan runs first (so a non-string pattern raises `TypeError`
even for preserved nodes, and the scan happens regardless of
`preserve`); then, when not preserving, missing tokens are collected in
scan order and raised together, otherwise the pattern is
format-substituted; when preserving, the pattern is used verbatim. -/
def segStep (name : SVal) (preserve : Bool)
    (tokens : List (String × PyValue)) : Except PyErr String :=
  match name with
  | .str pattern =>
    let requested := scanTokens pattern.data
    if !preserve then
      let missing := requested.filter (fun t => (lookupVal tokens t).isNone)
      if missing.length > 0 then .error (.missingTokens missing pattern)
      else pyFormat tokens pattern
    else .ok pattern
  | _ => .error .typeErrorPattern

/-- `HydroTemplateObject.build_path(tokens, child_path)`.  The dict check
comes first; then the segment is computed by `segStep`; then the segment
is joined with a truthy (non-empty) `child_path` as prefix; finally the
result is passed up to the parent when one is set. -/
def HTO.build_path : HTO → PyArg → Option String → Except PyErr String
  | .mk name preserve parentItem, tokensArg, child_path =>
    match tokensArg with
    | .nonDict => .error .typeErrorTokens
    | .dict tokens =>
      match segStep name preserve tokens with
      | .error e => .error e
      | .ok object_name =>
        let path :=
          match child_path with
          | some cp => if cp ≠ "" then osJoin object_name cp else object_name
          | none => object_name
        match parentItem with
        | some p => p.build_path tokensArg (some path)
        | none => .ok path

/-- Python truthiness of a schema value (`if preserve:`,
`if child_path:` and similar tests in the source). -/
def svalTruthy : SVal → Bool
  | .dict entries => !entries.isEmpty
  | .list items => !items.isEmpty
  | .str s => !(s = "")
  | .bool b => b
  | .int n => !(n = 0)
  | .null => false

/-- `d.get(k)` on a schema mapping: first-match lookup (keys of a real
Python dict are unique, so first match is the match). -/
def dictGet (entries : List (String × SVal)) (k : String) : Option SVal :=
  (entries.find? (fun e => e.1 = k)).map (fun e => e.2)

/-- Lines 56–75 of template_tree.py: the `preserve` flag computed for a
child entry `{child: data}` — `data.get('preserve', False)` under Python
truthiness when `data` is a dict, `False` otherwise. -/
def preserveOf (data : SVal) : Bool :=
  match data with
  | .dict entries => svalTruthy ((dictGet entries "preserve").getD (.bool false))
  | _ => false

/-- Lines 57–75 of template_tree.py: the `naming` pattern computed for a
child entry `{child: data}`.  Default is `'{%s}' % child`; a dict `data`
may override it with its `naming` value, unless `preserve` is truthy, in
which case the pattern is the literal key name. -/
def namingOf (child : String) (data : SVal) : SVal :=
  match data with
  | .dict entries =>
    if svalTruthy ((dictGet entries "preserve").getD (.bool false)) then
      .str child
    else (dictGet entries "naming").getD (.str ("\x7b" ++ child ++ "\x7d"))
  | _ => .str ("\x7b" ++ child ++ "\x7d")

/-- Lines 64–75 of template_tree.py: the `children` value for a child
entry — `data.get('children', data)` when `data` is a dict, `data`
itself otherwise. -/
def childrenOf (data : SVal) : SVal :=
  match data with
  | .dict entries => (dictGet entries "children").getD data
  | _ => data

theorem sizeOf_dictGet {entries : List (String × SVal)} {k : String}
    {v : SVal} (h : dictGet entries k = some v) : sizeOf v < sizeOf entries := by
  induction entries with
  | nil => simp [dictGet] at h
  | cons e rest ih =>
    simp only [dictGet, List.find?] at h
    by_cases hk : e.1 = k
    · simp [hk] at h
      subst h
      cases e
      simp
      omega
    · simp [hk] at h
      have := ih (by simpa [dictGet] using h)
      simp
      omega

theorem sizeOf_childrenOf_le (data : SVal) :
    sizeOf (childrenOf data) ≤ sizeOf data := by
  cases data with
  | dict entries =>
    simp only [childrenOf]
    cases h : dictGet entries "children" with
    | none => simp
    | some v =>
      have := sizeOf_dictGet h
      simp
      omega
  | list items => simp [childrenOf]
  | str s => simp [childrenOf]
  | bool b => simp [childrenOf]
  | int n => simp [childrenOf]
  | null => simp [childrenOf]

/-- The flat key-to-node map `_template_tree`.  New registrations are
prepended and lookup takes the first match, which gives the same lookup
behaviour as Python dict assignment (a later registration under the same
key shadows an earlier one). -/
abbrev Index := List (String × HTO)

/-- `self._template_tree[child] = template_object`. -/
def dictInsert (k : String) (v : HTO) (idx : Index) : Index := (k, v) :: idx

/-- Index lookup, `self._template_tree.get(key)`. -/
def indexGet (idx : Index) (k : String) : Option HTO :=
  (idx.find? (fun e => e.1 = k)).map (fun e => e.2)

mutual

/-- `HydroTemplateTree._process_template_tree_item(item, parent_item)`
(lines 45–96 of template_tree.py), with the index threaded explicitly.
The result pairs the index as mutated so far with the first raised
exception, if any (`none` means the call returned normally) — matching
in-place mutation of `self._template_tree`, which survives an exception.
The argument is whatever schema value was passed; `for child_item in
item` iterates a list element-wise, iterates a dict over its keys (so a
nonempty dict fails at `child_item.items()`, strings being dicts in no
case) and a string over its characters (same failure), and raises
`TypeError` on non-iterables. -/
def processTreeItem (item : SVal) (parent : Option HTO) (idx : Index) :
    Index × Option PyErr :=
  match item with
  | .list l => processChildItems l parent idx
  | .dict [] => (idx, none)
  | .dict _ => (idx, some .attributeError)
  | .str s => if s = "" then (idx, none) else (idx, some .attributeError)
  | _ => (idx, some .typeErrorNotIterable)
termination_by sizeOf item
decreasing_by all_goals simp

/-- The outer loop `for child_item in item`: each element must be a dict
(`child_item.items()`), whose entries are processed in order. -/
def processChildItems (items : List SVal) (parent : Option HTO) (idx : Index) :
    Index × Option PyErr :=
  match items with
  | [] => (idx, none)
  | v :: rest =>
    match v with
    | .dict entries =>
      match processEntries entries parent idx with
      | (idx2, some e) => (idx2, some e)
      | (idx2, none) => processChildItems rest parent idx2
    | _ => (idx, some .attributeError)
termination_by sizeOf items
decreasing_by all_goals (simp; try omega)

/-- The inner loop `for child, data in child_item.items()`: compute the
naming pattern, preserve flag and children value for the entry, build
the `HydroTemplateObject`, register it under the schema key unless
preserved, and recurse into the children value when it is a list, with
the new node as parent. -/
def processEntries (entries : List (String × SVal)) (parent : Option HTO)
    (idx : Index) : Index × Option PyErr :=
  match entries with
  | [] => (idx, none)
  | (child, data) :: rest =>
    match h : childrenOf data with
    | .list l =>
      match processTreeItem (.list l)
          (some (HTO.mk (namingOf child data) (preserveOf data) parent))
          (if preserveOf data then idx
           else dictInsert child
             (HTO.mk (namingOf child data) (preserveOf data) parent) idx) with
      | (idx2, some e) => (idx2, some e)
      | (idx2, none) => processEntries rest parent idx2
    | _ =>
      processEntries rest parent
        (if preserveOf data then idx
         else dictInsert child
           (HTO.mk (namingOf child data) (preserveOf data) parent) idx)
termination_by sizeOf entries
decreasing_by
  all_goals first
  | (simp; done)
  | (simp; omega)
  | (have hle := sizeOf_childrenOf_le data
     rw [h] at hle
     simp at hle ⊢
     omega)

end

/-- `HydroTemplateTree._process_template_tree` (lines 98–104): iterate
the roots of the schema dict and process each root's data.  A schema
that is not a dict (including the initial `None`) fails at `.items()`
with `AttributeError`. -/
def processTemplateTree (schema : Option SVal) (idx : Index) :
    Index × Option PyErr :=
  match schema with
  | some (.dict roots) =>
    roots.foldl
      (fun acc root =>
        match acc with
        | (idx2, some e) => (idx2, some e)
        | (idx2, none) => processTreeItem root.2 none idx2)
      (idx, none)
  | _ => (idx, some .attributeError)

/-- The `HydroTemplateTree` object state: schema-file path, loaded
schema (`None` before any load), the flat key-to-node index, and the
root prefix `_template_tree_root` (initialised to the empty string and
never assigned elsewhere in the source). -/
structure HydroTemplateTree where
  templatePath : Option String
  templateSchema : Option SVal
  templateTree : Index
  templateTreeRoot : String

/-- Python truthiness of `self._template_path` (`None` and the empty
string are falsy). -/
def pathTruthy : Option String → Bool
  | none => false
  | some s => !(s = "")

/-- `HydroTemplateTree._load_template_tree` (lines 22–43).  File I/O is
abstracted by `read`, which maps the schema path to the parsed YAML
document (the `copy.deepcopy` in the source only shields the internal
schema from aliasing and has no observable effect in this pure model).
A falsy path raises `HydroTemplateSchemaFileNotSpecifiedException`
before anything else happens; otherwise the schema is stored and — when
`processTree` is true — the hierarchy is (re)built on top of the
existing index. -/
def loadTemplateTree (read : String → SVal) (t : HydroTemplateTree)
    (processTree : Bool) : HydroTemplateTree × Option PyErr :=
  if pathTruthy t.templatePath then
    let schema := read (t.templatePath.getD "")
    let t1 := { t with templateSchema := some schema }
    if processTree then
      match processTemplateTree t1.templateSchema t1.templateTree with
      | (idx, e) => ({ t1 with templateTree := idx }, e)
    else (t1, none)
  else (t, some .noSchemaSource)

/-- `HydroTemplateTree.__init__` (lines 125–137): initialise the four
fields and, when a truthy path was supplied, load (and process) the
schema immediately. -/
def initTree (read : String → SVal) (templatePath : Option String) :
    HydroTemplateTree × Option PyErr :=
  let base : HydroTemplateTree :=
    { templatePath := templatePath
      templateSchema := none
      templateTree := []
      templateTreeRoot := "" }
  if pathTruthy templatePath then loadTemplateTree read base true
  else (base, none)

/-- `HydroTemplateTree.build_path(key, tokens)` (lines 106–123): look
the key up in the flat index (`.get`, so an absent key yields `None`,
which is falsy — a `HydroTemplateObject` itself is always truthy) and
raise `KeyError` when absent; otherwise delegate to the node's
`build_path` and prefix `_template_tree_root` with `os.path.join`. -/
def treeBuildPath (t : HydroTemplateTree) (key : String) (tokens : PyArg) :
    Except PyErr String :=
  match indexGet t.templateTree key with
  | none => .error (.keyNotFound key)
  | some node =>
    (node.build_path tokens none).map (fun p => osJoin t.templateTreeRoot p)

/-- Step lemma: processing a child entry whose children value is a list
first registers (or skips) the node, then recurses into the children
with the new node as parent, then continues with the remaining entries. -/
theorem processEntries_cons_list (child : String) (data : SVal)
    (rest : List (String × SVal)) (parent : Option HTO) (idx : Index)
    (l : List SVal) (hcl : childrenOf data = SVal.list l) :
    processEntries ((child, data) :: rest) parent idx =
      (match processTreeItem (SVal.list l)
          (some (HTO.mk (namingOf child data) (preserveOf data) parent))
          (if preserveOf data then idx
           else dictInsert child
             (HTO.mk (namingOf child data) (preserveOf data) parent) idx) with
       | (idx2, some e) => (idx2, some e)
       | (idx2, none) => processEntries rest parent idx2) := by
  rw [processEntries.eq_2]
  split
  next l2 heq =>
    rw [hcl] at heq
    injection heq with h2
    subst h2
    rfl
  next heq =>
    exact (heq l hcl).elim

/-- Step lemma: processing a child entry whose children value is not a
list registers (or skips) the node and continues with the remaining
entries — no recursion into descendants. -/
theorem processEntries_cons_nonlist (child : String) (data : SVal)
    (rest : List (String × SVal)) (parent : Option HTO) (idx : Index)
    (hnl : ∀ l, childrenOf data = SVal.list l → False) :
    processEntries ((child, data) :: rest) parent idx =
      processEntries rest parent
        (if preserveOf data then idx
         else dictInsert child
           (HTO.mk (namingOf child data) (preserveOf data) parent) idx) := by
  rw [processEntries.eq_2]
  split
  next l2 heq => exact (hnl l2 heq).elim
  next heq => rfl

/-- The registration step of one entry keeps the index free of
preserved nodes: when the entry is preserved nothing is inserted, and
when it is not, the inserted node itself carries `preserve = false`. -/
theorem insertStep_unpreserved (child : String) (data : SVal)
    (parent : Option HTO) (idx : Index)
    (hinv : ∀ e ∈ idx, (e.2).preserve = false) :
    ∀ e ∈ (if preserveOf data then idx
           else dictInsert child
             (HTO.mk (namingOf child data) (preserveOf data) parent) idx),
      (e.2).preserve = false := by
  by_cases hp : preserveOf data = true
  · simpa [hp] using hinv
  · have hp2 : preserveOf data = false := by
      revert hp
      cases preserveOf data <;> simp
    intro e he
    simp only [hp2, dictInsert, List.mem_cons, if_false, Bool.false_eq_true] at he
    rcases he with he | he
    · subst he
      simp [HTO.preserve, hp2]
    · exact hinv e he

/-- Every node the compilation pass ever registers carries
`preserve = false`: the registration site is guarded by
`if not preserve`.  Stated for the whole recursion. -/
theorem processTreeItem_keeps_unpreserved (item : SVal)
    (parent : Option HTO) (idx : Index) :
    (∀ e ∈ idx, (e.2).preserve = false) →
    ∀ e ∈ (processTreeItem item parent idx).1, (e.2).preserve = false := by
  induction item, parent, idx using processTreeItem.induct with
  | motive2 items parent idx =>
    exact (∀ e ∈ idx, (e.2).preserve = false) →
      ∀ e ∈ (processChildItems items parent idx).1, (e.2).preserve = false
  | motive3 entries parent idx =>
    exact (∀ e ∈ idx, (e.2).preserve = false) →
      ∀ e ∈ (processEntries entries parent idx).1, (e.2).preserve = false
  | case1 parent idx l ih =>
    intro hinv
    rw [processTreeItem.eq_1]
    exact ih hinv
  | case2 parent idx =>
    intro hinv
    rw [processTreeItem.eq_2]
    exact hinv
  | case3 parent idx entries hne =>
    intro hinv
    rw [processTreeItem.eq_3 _ _ _ hne]
    exact hinv
  | case4 parent idx =>
    intro hinv
    rw [processTreeItem.eq_4]
    simpa using hinv
  | case5 parent idx s hs =>
    intro hinv
    rw [processTreeItem.eq_4]
    simpa [hs] using hinv
  | case6 item parent idx h1 h2 h3 h4 =>
    intro hinv
    rw [processTreeItem.eq_5 _ _ _ h1 h2 h3 h4]
    exact hinv
  | case7 parent idx =>
    intro hinv
    rw [processChildItems.eq_1]
    exact hinv
  | case8 parent idx rest entries idx2 e hpe ih =>
    intro hinv
    rw [processChildItems.eq_2, hpe]
    have hres := ih hinv
    rw [hpe] at hres
    exact hres
  | case9 parent idx rest entries idx2 hpe ih1 ih2 =>
    intro hinv
    rw [processChildItems.eq_2, hpe]
    apply ih2
    have hres := ih1 hinv
    rw [hpe] at hres
    exact hres
  | case10 parent idx v rest hne =>
    intro hinv
    rw [processChildItems.eq_3 _ _ _ _ hne]
    exact hinv
  | case11 parent idx =>
    intro hinv
    rw [processEntries.eq_1]
    exact hinv
  | case12 parent idx child data rest l hcl idx2 e hpt ih =>
    intro hinv
    simp only [dite_eq_ite] at hpt ih
    rw [processEntries_cons_list child data rest parent idx l hcl, hpt]
    have hres := ih (insertStep_unpreserved child data parent idx hinv)
    rw [hpt] at hres
    simpa using hres
  | case13 parent idx child data rest l hcl idx2 hpt ih1 ih2 =>
    intro hinv
    simp only [dite_eq_ite] at hpt ih1 ih2
    rw [processEntries_cons_list child data rest parent idx l hcl, hpt]
    have hmid := ih1 (insertStep_unpreserved child data parent idx hinv)
    rw [hpt] at hmid
    simpa using ih2 (by simpa using hmid)
  | case14 parent idx child data rest hnl ih =>
    intro hinv
    simp only [dite_eq_ite] at ih
    rw [processEntries_cons_nonlist child data rest parent idx hnl]
    exact ih (insertStep_unpreserved child data parent idx hinv)

/-! ## Claims -/

/-- C5: during tree compilation, a child entry whose data carries
`preserve: true` produces a node whose pattern is the literal key name
(any `naming` override is ignored) and registers nothing for itself —
whether or not it recurses into children — and, globally, every node
ever present in the index has `preserve = false`, so preserved nodes
are never registered; a child entry whose effective preserve flag is
false is registered in the index under its schema key name, before any
recursion into its children. -/
theorem compile_preserve_registration
    (child : String) (entries : List (String × SVal)) (data2 : SVal)
    (rest : List (String × SVal)) (parent : Option HTO) (idx : Index)
    (item : SVal) (idx0 : Index) :
    (dictGet entries "preserve" = some (.bool true) →
      namingOf child (.dict entries) = .str child ∧
      preserveOf (.dict entries) = true ∧
      ((∀ l, childrenOf (.dict entries) = SVal.list l → False) →
        processEntries ((child, .dict entries) :: rest) parent idx =
          processEntries rest parent idx) ∧
      (∀ l, childrenOf (.dict entries) = SVal.list l →
        processEntries ((child, .dict entries) :: rest) parent idx =
          (match processTreeItem (SVal.list l)
              (some (HTO.mk (.str child) true parent)) idx with
           | (i2, some e) => (i2, some e)
           | (i2, none) => processEntries rest parent i2))) ∧
    ((∀ e ∈ idx0, (e.2).preserve = false) →
      ∀ e ∈ (processTreeItem item parent idx0).1, (e.2).preserve = false) ∧
    (preserveOf data2 = false →
      indexGet (dictInsert child
        (HTO.mk (namingOf child data2) false parent) idx) child =
        some (HTO.mk (namingOf child data2) false parent) ∧
      ((∀ l, childrenOf data2 = SVal.list l → False) →
        processEntries ((child, data2) :: rest) parent idx =
          processEntries rest parent
            (dictInsert child
              (HTO.mk (namingOf child data2) false parent) idx)) ∧
      (∀ l, childrenOf data2 = SVal.list l →
        processEntries ((child, data2) :: rest) parent idx =
          (match processTreeItem (SVal.list l)
              (some (HTO.mk (namingOf child data2) false parent))
              (dictInsert child
                (HTO.mk (namingOf child data2) false parent) idx) with
           | (i2, some e) => (i2, some e)
           | (i2, none) => processEntries rest parent i2))) := by
  refine ⟨?_, ?_, ?_⟩
  · intro hp
    have hpres : preserveOf (.dict entries) = true := by
      simp [preserveOf, hp, svalTruthy]
    refine ⟨by simp [namingOf, hp, svalTruthy], hpres, ?_, ?_⟩
    · intro hnl
      rw [processEntries_cons_nonlist child (.dict entries) rest parent idx hnl]
      simp [hpres]
    · intro l hcl
      rw [processEntries_cons_list child (.dict entries) rest parent idx l hcl]
      have hnm : namingOf child (.dict entries) = .str child := by
        simp [namingOf, hp, svalTruthy]
      rw [hnm, hpres]
      simp
  · exact processTreeItem_keeps_unpreserved item parent idx0
  · intro hp
    refine ⟨by simp [indexGet, dictInsert], ?_, ?_⟩
    · intro hnl
      rw [processEntries_cons_nonlist child data2 rest parent idx hnl, hp]
      simp
    · intro l hcl
      rw [processEntries_cons_list child data2 rest parent idx l hcl, hp]
      simp

/-- Witness for C5: a preserved entry (with a `naming` override to be
ignored and no children) leaves the index untouched; an unpreserved
entry (the empty dict) is registered under its key. -/
theorem compile_preserve_registration_witness :
    namingOf "seq" (.dict [("preserve", .bool true),
      ("naming", .str "{x}")]) = .str "seq" ∧
    processEntries [("seq", .dict [("preserve", .bool true),
      ("naming", .str "{x}")])] none [] = ([], none) ∧
    processEntries [("shot", .dict [])] none [] =
      ([("shot", HTO.mk (.str "\x7bshot\x7d") false none)], none) := by
  have h := compile_preserve_registration "seq"
    [("preserve", .bool true), ("naming", .str "{x}")] (.dict []) [] none []
    (.dict []) []
  have h1 := (h.1 rfl).1
  have h3 := (h.1 rfl).2.2.1 (by intro l hl; simp [childrenOf, dictGet] at hl)
  have h4 := compile_preserve_registration "shot" [] (.dict []) [] none []
    (.dict []) []
  have h5 := (h4.2.2 (by rfl)).2.1 (by intro l hl; simp [childrenOf, dictGet] at hl)
  refine ⟨h1, ?_, ?_⟩
  · rw [h3, processEntries.eq_1]
  · rw [h5, processEntries.eq_1]
    simp [namingOf, dictGet, dictInsert, svalTruthy]

/-- C6: during tree compilation, a child entry whose data is a mapping
without a `children` key treats the data itself as the nested child
list (`data.get('children', data)` falls back to `data`), and recursion
into the children value — with the newly constructed node as parent —
occurs exactly when that value is a list; since a mapping is never a
list, such an entry never recurses, and processing continues directly
with the remaining entries after the registration step. -/
theorem compile_children_fallback
    (child : String) (entries : List (String × SVal)) (data2 : SVal)
    (rest : List (String × SVal)) (parent : Option HTO) (idx : Index) :
    (dictGet entries "children" = none →
      childrenOf (.dict entries) = .dict entries ∧
      processEntries ((child, .dict entries) :: rest) parent idx =
        processEntries rest parent
          (if preserveOf (.dict entries) then idx
           else dictInsert child
             (HTO.mk (namingOf child (.dict entries))
               (preserveOf (.dict entries)) parent) idx)) ∧
    (∀ l, childrenOf data2 = SVal.list l →
      processEntries ((child, data2) :: rest) parent idx =
        (match processTreeItem (SVal.list l)
            (some (HTO.mk (namingOf child data2) (preserveOf data2) parent))
            (if preserveOf data2 then idx
             else dictInsert child
               (HTO.mk (namingOf child data2) (preserveOf data2) parent) idx)
          with
         | (i2, some e) => (i2, some e)
         | (i2, none) => processEntries rest parent i2)) ∧
    ((∀ l, childrenOf data2 = SVal.list l → False) →
      processEntries ((child, data2) :: rest) parent idx =
        processEntries rest parent
          (if preserveOf data2 then idx
           else dictInsert child
             (HTO.mk (namingOf child data2) (preserveOf data2) parent) idx)) := by
  refine ⟨?_, ?_, ?_⟩
  · intro hnc
    have hch : childrenOf (.dict entries) = .dict entries := by
      simp [childrenOf, hnc]
    refine ⟨hch, ?_⟩
    exact processEntries_cons_nonlist child (.dict entries) rest parent idx
      (fun l hl => by rw [hch] at hl; exact absurd hl (by simp))
  · intro l hcl
    exact processEntries_cons_list child data2 rest parent idx l hcl
  · intro hnl
    exact processEntries_cons_nonlist child data2 rest parent idx hnl

/-- Witness for C6: the entry `{shot: {naming: "{s}"}}` has no
`children` key, so its own mapping is the fallback children value and
no recursion happens; the entry `{seq: [{shot: {}}]}` has a list as
children value, so compilation recurses and registers the grandchild
with the new node as parent. -/
theorem compile_children_fallback_witness :
    childrenOf (.dict [("naming", SVal.str "{s}")]) =
      .dict [("naming", SVal.str "{s}")] ∧
    processEntries [("shot", .dict [("naming", SVal.str "{s}")])] none [] =
      ([("shot", HTO.mk (.str "{s}") false none)], none) ∧
    processEntries [("seq", SVal.list [.dict [("shot", SVal.dict [])]])]
        none [] =
      ([("shot", HTO.mk (.str "\x7bshot\x7d") false
          (some (HTO.mk (.str "\x7bseq\x7d") false none))),
        ("seq", HTO.mk (.str "\x7bseq\x7d") false none)], none) := by
  have h1 := (compile_children_fallback "shot" [("naming", SVal.str "{s}")]
    (.dict []) [] none []).1 rfl
  have h2 := (compile_children_fallback "seq" []
    (SVal.list [.dict [("shot", SVal.dict [])]]) [] none []).2.1
    [.dict [("shot", SVal.dict [])]] rfl
  refine ⟨h1.1, ?_, ?_⟩
  · rw [h1.2, processEntries.eq_1]
    simp [namingOf, dictGet, dictInsert, svalTruthy, preserveOf]
  · rw [h2]
    have h3 := (compile_children_fallback "shot" [] (SVal.dict [])
      [] (some (HTO.mk (namingOf "seq" (SVal.list [.dict [("shot", SVal.dict [])]]))
        (preserveOf (SVal.list [.dict [("shot", SVal.dict [])]])) none))
      (if preserveOf (SVal.list [.dict [("shot", SVal.dict [])]]) = true then []
       else dictInsert "seq" (HTO.mk (namingOf "seq"
        (SVal.list [.dict [("shot", SVal.dict [])]]))
        (preserveOf (SVal.list [.dict [("shot", SVal.dict [])]])) none) [])).2.2
      (fun l hl => by simp [childrenOf, dictGet] at hl)
    rw [processTreeItem.eq_1, processChildItems.eq_2]
    rw [h3, processEntries.eq_1]
    simp [namingOf, preserveOf, dictGet, dictInsert, svalTruthy, childrenOf,
      processChildItems.eq_1]
    rw [processEntries.eq_1]

/-- C7: for every node with `preserve = true` and every token mapping
(including the empty one), the node's own segment is its pattern
verbatim — no substitution, no missing-token check; whichever keys the
mapping contains play no role. -/
theorem preserved_segment_verbatim (pattern : String)
    (tokens : List (String × PyValue)) :
    segStep (.str pattern) true tokens = .ok pattern := by
  simp [segStep]

/-- C8: for every node (preserved or not) and every child suffix, a
tokens argument that is not a mapping fails with the `InvalidArgument`
error (`TypeError`), before any substitution or missing-token check. -/
theorem nondict_tokens_type_error (node : HTO) (cp : Option String) :
    node.build_path .nonDict cp = .error .typeErrorTokens := by
  cases node
  rfl

/-- C2: for a node with a parent `P`, once the node's own segment
resolves to `s`, `node.resolve(tokens)` equals `P.resolve(tokens, s)` —
the node joins its segment as prefix to any child suffix and delegates
the combination to its parent, so child-then-parent joining equals
direct parent delegation. -/
theorem resolve_delegates_to_parent (name : SVal) (preserve : Bool)
    (P : HTO) (m : List (String × PyValue)) (s : String)
    (hseg : segStep name preserve m = .ok s) :
    HTO.build_path (.mk name preserve (some P)) (.dict m) none =
      P.build_path (.dict m) (some s) := by
  simp [HTO.build_path, hseg]

/-- Witness for C2 at a concrete node: `{a}` under `sequences`
(preserved), with tokens `{a: "x"}`. -/
theorem resolve_delegates_to_parent_witness :
    segStep (.str "{a}") false [("a", PyValue.str "x")] = .ok "x" ∧
    HTO.build_path
        (.mk (.str "{a}") false (some (.mk (.str "sequences") true none)))
        (.dict [("a", PyValue.str "x")]) none =
      HTO.build_path (.mk (.str "sequences") true none)
        (.dict [("a", PyValue.str "x")]) (some "x") :=
  ⟨by decide,
   resolve_delegates_to_parent (.str "{a}") false
     (.mk (.str "sequences") true none) [("a", PyValue.str "x")] "x"
     (by decide)⟩

/-- C3: `build_path(key, tokens)` on a tree fails with `KeyNotFound`
naming the key whenever the key is absent from the compiled index,
independently of the tokens argument (even a non-mapping one); when the
key is present it returns the root path joined with the found node's
resolution. -/
theorem tree_build_path_spec (t : HydroTemplateTree) (key : String)
    (tokens : PyArg) :
    (indexGet t.templateTree key = none →
      treeBuildPath t key tokens = .error (.keyNotFound key)) ∧
    ∀ node, indexGet t.templateTree key = some node →
      treeBuildPath t key tokens =
        (node.build_path tokens none).map
          (fun p => osJoin t.templateTreeRoot p) := by
  constructor
  · intro h
    simp [treeBuildPath, h]
  · intro node h
    simp [treeBuildPath, h]

/-- Witness for C3 on a concrete tree: both the absent-key branch and
the present-key branch, with a non-mapping tokens argument to exhibit
independence from token contents. -/
theorem tree_build_path_spec_witness :
    treeBuildPath
        { templatePath := none, templateSchema := none,
          templateTree := [("k", HTO.mk (.str "{k}") false none)],
          templateTreeRoot := "" }
        "missing" .nonDict = .error (.keyNotFound "missing") ∧
    treeBuildPath
        { templatePath := none, templateSchema := none,
          templateTree := [("k", HTO.mk (.str "{k}") false none)],
          templateTreeRoot := "" }
        "k" .nonDict =
      ((HTO.mk (.str "{k}") false none).build_path .nonDict none).map
        (fun p => osJoin "" p) :=
  ⟨(tree_build_path_spec _ "missing" .nonDict).1 rfl,
   (tree_build_path_spec _ "k" .nonDict).2 (HTO.mk (.str "{k}") false none)
     rfl⟩

/-- C9: a tree constructed without a schema source starts with an empty
(unset) schema and an empty index, raises no error at construction,
fails every `build_path` call with `KeyNotFound` for every key before
any load, and fails a subsequent load request with the `NoSchemaSource`
error, leaving the tree unchanged. -/
theorem tree_without_source (read readLater : String → SVal) (b : Bool)
    (key : String) (tokens : PyArg) :
    (initTree read none).1.templateSchema = none ∧
    (initTree read none).1.templateTree = [] ∧
    (initTree read none).2 = none ∧
    treeBuildPath (initTree read none).1 key tokens =
      .error (.keyNotFound key) ∧
    loadTemplateTree readLater (initTree read none).1 b =
      ((initTree read none).1, some .noSchemaSource) := by
  refine ⟨rfl, rfl, rfl, ?_, ?_⟩
  · simp [initTree, treeBuildPath, indexGet, pathTruthy]
  · simp [initTree, loadTemplateTree, pathTruthy]

/-- C1: for every non-preserved node and every token mapping missing at
least one placeholder name discovered in the node's pattern, resolution
fails with the `MissingTokens` error carrying the full list of missing
placeholder names and the offending pattern — the error is raised
before any substitution and before delegating to the parent, so no
partial result is produced — and every discovered-but-absent name is in
that list. -/
theorem missing_tokens_enumerated (pattern : String) (parent : Option HTO)
    (m : List (String × PyValue)) (cp : Option String)
    (hmiss :
      (scanTokens pattern.data).filter (fun t => (lookupVal m t).isNone) ≠ []) :
    HTO.build_path (.mk (.str pattern) false parent) (.dict m) cp =
      .error (.missingTokens
        ((scanTokens pattern.data).filter (fun t => (lookupVal m t).isNone))
        pattern) ∧
    ∀ t ∈ scanTokens pattern.data, lookupVal m t = none →
      t ∈ (scanTokens pattern.data).filter (fun t => (lookupVal m t).isNone) := by
  constructor
  · have hlen :
        ((scanTokens pattern.data).filter
          (fun t => (lookupVal m t).isNone)).length > 0 := by
      cases hf : (scanTokens pattern.data).filter
          (fun t => (lookupVal m t).isNone) with
      | nil => exact absurd hf hmiss
      | cons a l => simp
    cases parent <;> simp [HTO.build_path, segStep, hlen]
  · intro t ht hnone
    exact List.mem_filter.mpr ⟨ht, by simp [hnone]⟩

/-- The placeholder-discovery scan as claim C4 words it: the substrings
consisting of one or more alphabetic characters that appear immediately
before a `}`, or before a `:` that itself precedes a `}`.  (Maximal
alphabetic runs, since a discovered name is the whole substring standing
before the terminator.) -/
def specScanC4 : List Char → List String
  | [] => []
  | c :: rest =>
    if c.isAlpha then
      let rest' := rest.dropWhile (·.isAlpha)
      (match rest' with
       | '}' :: _ => [String.mk (c :: rest.takeWhile (·.isAlpha))]
       | ':' :: '}' :: _ => [String.mk (c :: rest.takeWhile (·.isAlpha))]
       | _ => []) ++ specScanC4 rest'
    else specScanC4 rest
termination_by l => l.length
decreasing_by
  · have hle : (rest.dropWhile (fun c => c.isAlpha)).length ≤ rest.length :=
      (List.dropWhile_sublist (l := rest) (fun c => c.isAlpha)).length_le
    simp at hle ⊢
    omega
  · simp

/-- The discovery scan as the code actually behaves (amended claim C4):
the maximal runs of characters in the ASCII span `A`–`z` — the letters
plus `[`, `\`, `]`, `^`, `_` and the backquote — that are immediately
followed by a `}` or by a `:`, whether or not that `:` precedes a `}`. -/
def amendedScanC4 : List Char → List String
  | [] => []
  | c :: rest =>
    if isAz c then
      let rest' := rest.dropWhile isAz
      (match rest' with
       | d :: _ =>
         if isStop d then [String.mk (c :: rest.takeWhile isAz)] else []
       | [] => []) ++ amendedScanC4 rest'
    else amendedScanC4 rest
termination_by l => l.length
decreasing_by
  · have hle : (rest.dropWhile isAz).length ≤ rest.length :=
      (List.dropWhile_sublist (l := rest) isAz).length_le
    simp at hle ⊢
    omega
  · simp

theorem scanAux_run_append (acc run rest' : List Char)
    (hrun : ∀ x ∈ run, isAz x = true) :
    scanAux (some acc) (run ++ rest') =
      scanAux (some (run.reverse ++ acc)) rest' := by
  induction run generalizing acc with
  | nil => simp
  | cons r rs ih =>
    have hr : isAz r = true := hrun r (by simp)
    have hrs : ∀ x ∈ rs, isAz x = true := fun x hx => hrun x (by simp [hx])
    simp only [List.cons_append, scanAux, hr, if_pos, List.append_eq]
    rw [ih (r :: acc) hrs]
    simp

theorem dropWhile_head_false {p : Char → Bool} {l tl : List Char} {d : Char}
    (h : l.dropWhile p = d :: tl) : p d = false := by
  induction l with
  | nil => simp [List.dropWhile] at h
  | cons a as ih =>
    rw [List.dropWhile_cons] at h
    by_cases hp : p a = true
    · exact ih (by simpa [hp] using h)
    · simp [hp] at h
      obtain ⟨h1, _⟩ := h
      subst h1
      simpa using hp

/-- C4 (amended): placeholder discovery finds exactly the maximal runs
of characters in the ASCII span `A`–`z` (the letters plus `[`, `\\`,
`]`, `^`, `_` and the backquote) that appear immediately before a `}`
or a `:` — whether or not that `:` itself precedes a `}`.  (The scan is
the unconditional `re.findall` on line 44 of template_item.py, so it
runs even for preserved nodes; see `segStep`, where its result is used
only when `preserve` is false.) -/
theorem scanTokens_eq_amendedScanC4 (l : List Char) :
    scanTokens l = amendedScanC4 l := by
  cases l with
  | nil => simp [scanTokens, scanAux, amendedScanC4]
  | cons c rest =>
    by_cases hc : isAz c = true
    · have hrunAz : ∀ x ∈ rest.takeWhile isAz, isAz x = true :=
        fun x hx => List.mem_takeWhile_imp hx
      have hsplit : rest.takeWhile isAz ++ rest.dropWhile isAz = rest :=
        rest.takeWhile_append_dropWhile isAz
      have h1 : scanTokens (c :: rest) =
          scanAux (some ((rest.takeWhile isAz).reverse ++ [c]))
            (rest.dropWhile isAz) := by
        show scanAux none (c :: rest) = _
        rw [scanAux, if_pos hc]
        conv_lhs => rw [← hsplit]
        exact scanAux_run_append [c] _ _ hrunAz
      cases hrest' : rest.dropWhile isAz with
      | nil =>
        rw [h1, hrest']
        rw [amendedScanC4, if_pos hc, hrest']
        simp [scanAux, amendedScanC4]
      | cons d tl =>
        have hd : isAz d = false := dropWhile_head_false hrest'
        have hlen : tl.length < rest.length + 1 := by
          have := congrArg List.length hsplit
          rw [hrest'] at this
          simp at this
          omega
        have htl : scanAux none tl = amendedScanC4 tl :=
          scanTokens_eq_amendedScanC4 tl
        have hdtl : amendedScanC4 (d :: tl) = amendedScanC4 tl := by
          rw [amendedScanC4, if_neg (by simp [hd])]
        by_cases hstop : isStop d = true
        · rw [h1, hrest']
          rw [scanAux, if_neg (by simp [hd]), if_pos hstop, htl]
          rw [amendedScanC4, if_pos hc, hrest']
          simp [hstop, hdtl]
        · rw [h1, hrest']
          rw [scanAux, if_neg (by simp [hd]), if_neg (by simp_all), htl]
          rw [amendedScanC4, if_pos hc, hrest']
          simp [hstop, hdtl]
    · have h1 : scanTokens (c :: rest) = scanTokens rest := by
        show scanAux none (c :: rest) = scanAux none rest
        rw [scanAux, if_neg hc]
      rw [h1, scanTokens_eq_amendedScanC4 rest, amendedScanC4, if_neg hc]
termination_by l.length
decreasing_by
  all_goals (simp; try omega)

/-- The token names a node's own segment computation can consult: the
names discovered by the regex scan (for the missing-token check) and the
replacement-field names the format substitution looks up.  Empty for a
non-string pattern, whose resolution fails before consulting tokens. -/
def refNamesOf : SVal → List String
  | .str p => scanTokens p.data ++ fmtNames .lit p.data
  | _ => []

theorem segStep_agree (name : SVal) (pres : Bool)
    (m1 m2 : List (String × PyValue))
    (h : ∀ t ∈ refNamesOf name, lookupVal m1 t = lookupVal m2 t) :
    segStep name pres m1 = segStep name pres m2 := by
  cases name with
  | str p =>
    have hs : ∀ t ∈ scanTokens p.data, lookupVal m1 t = lookupVal m2 t :=
      fun t ht => h t (by simp [refNamesOf, ht])
    have hf : ∀ t ∈ fmtNames .lit p.data, lookupVal m1 t = lookupVal m2 t :=
      fun t ht => h t (by simp [refNamesOf, ht])
    by_cases hp : pres
    · simp [segStep, hp]
    · have hfilter :
          (scanTokens p.data).filter (fun t => (lookupVal m1 t).isNone) =
            (scanTokens p.data).filter (fun t => (lookupVal m2 t).isNone) :=
        List.filter_congr (fun t ht => by rw [hs t ht])
      simp only [segStep, hp, Bool.not_false, if_true]
      rw [hfilter]
      by_cases hlen :
          ((scanTokens p.data).filter
            (fun t => (lookupVal m2 t).isNone)).length > 0
      · simp [hlen]
      · simp only [hlen, if_neg, if_false]
        exact fmtRun_agree m1 m2 .lit p.data hf
  | dict entries => rfl
  | list items => rfl
  | bool b => rfl
  | int n => rfl
  | null => rfl

/-- The patterns of a node and of all its ancestors, child first. -/
def patternsOf : HTO → List SVal
  | .mk name _ parent =>
    name ::
      (match parent with
       | some p => patternsOf p
       | none => [])

/-- Counterexample to C4 as stated: on `"a:b"` the code's scan finds
`"a"` (the `:` lookahead does not require a following `}`), while the
claimed characterization finds nothing; on `"x_y}"` the code finds
`"x_y"` (`_` lies in the `[A-z]` span), while the claimed alphabetic
characterization finds only `"y"`. -/
theorem scan_spec_counterexample :
    scanTokens ("a:b".data) = ["a"] ∧ specScanC4 ("a:b".data) = [] ∧
    scanTokens ("x_y\x7d".data) = ["x_y"] ∧ specScanC4 ("x_y\x7d".data) = ["y"] ∧
    scanTokens ("a:b".data) ≠ specScanC4 ("a:b".data) := by
  refine ⟨by decide, by simp [specScanC4], by decide, by simp [specScanC4], ?_⟩
  intro h
  rw [show specScanC4 ("a:b".data) = [] from by simp [specScanC4]] at h
  exact absurd h (by decide)

/-- Witness for C1: pattern `{sequence}_{shot}` with only `sequence`
supplied fails naming exactly the missing `shot`. -/
theorem missing_tokens_enumerated_witness :
    HTO.build_path (.mk (.str "{sequence}_{shot}") false none)
        (.dict [("sequence", PyValue.str "s01")]) none =
      .error (.missingTokens ["shot"] "{sequence}_{shot}") :=
  ((missing_tokens_enumerated "{sequence}_{shot}" none
      [("sequence", PyValue.str "s01")] none (by decide)).1).trans (by decide)

/-- Counterexample to C10 as stated: the pattern `{a1}` has no
placeholder discovered by the scan (`1` is outside the regex's `[A-z]`
class, so no run ends right before the `}`), hence the two mappings
`{a1: "x"}` and `{}` agree on every discovered placeholder name; yet
resolution substitutes `"x"` with the first and fails with a `KeyError`
with the second, because the format substitution consults the field
name `a1` that discovery never finds. -/
theorem resolve_token_agreement_counterexample :
    scanTokens ("{a1}".data) = [] ∧
    HTO.build_path (.mk (.str "{a1}") false none)
        (.dict [("a1", PyValue.str "x")]) none = .ok "x" ∧
    HTO.build_path (.mk (.str "{a1}") false none) (.dict []) none =
      .error (.keyError "a1") :=
  ⟨by decide, by decide, by decide⟩

/-- C10 (amended): for every node and every two token mappings that
agree on all placeholder names discovered in the node's pattern and in
every ancestor's pattern *and on all replacement-field names those
patterns' format substitution consults*, resolve returns the same
result; in particular, adding extra unused keys never changes the
output and never causes an error, and a placeholder name occurring more
than once in a pattern is substituted with the same value at every
occurrence. -/
theorem resolve_agrees_on_referenced_tokens (node : HTO)
    (m1 m2 : List (String × PyValue)) (cp : Option String)
    (hagree : ∀ nm ∈ patternsOf node, ∀ t ∈ refNamesOf nm,
      lookupVal m1 t = lookupVal m2 t) :
    node.build_path (.dict m1) cp = node.build_path (.dict m2) cp := by
  match node with
  | .mk name pres parent =>
    have hseg : segStep name pres m1 = segStep name pres m2 :=
      segStep_agree name pres m1 m2
        (hagree name (by rw [patternsOf.eq_def]; exact List.mem_cons_self _ _))
    cases hs : segStep name pres m1 with
    | error e =>
      have hs2 : segStep name pres m2 = .error e := by rw [← hseg, hs]
      simp [HTO.build_path, hs, hs2]
    | ok object_name =>
      have hs2 : segStep name pres m2 = .ok object_name := by rw [← hseg, hs]
      cases parent with
      | none => simp [HTO.build_path, hs, hs2]
      | some p =>
        have hrec :=
          resolve_agrees_on_referenced_tokens p m1 m2
            (some (match cp with
                   | some c => if c ≠ "" then osJoin object_name c
                               else object_name
                   | none => object_name))
            (fun nm hnm => hagree nm (List.mem_cons_of_mem _ hnm))
        simp only [HTO.build_path, hs, hs2]
        exact hrec

/-- Witness for C10 (amended): the duplicated placeholder in `{a}_{a}`
is substituted consistently, and the extra unused key `b` changes
nothing. -/
theorem resolve_agrees_on_referenced_tokens_witness :
    HTO.build_path (.mk (.str "{a}_{a}") false none)
        (.dict [("a", PyValue.str "x")]) none =
      HTO.build_path (.mk (.str "{a}_{a}") false none)
        (.dict [("a", PyValue.str "x"), ("b", PyValue.int 5)]) none :=
  resolve_agrees_on_referenced_tokens (.mk (.str "{a}_{a}") false none)
    [("a", PyValue.str "x")] [("a", PyValue.str "x"), ("b", PyValue.int 5)]
    none (by decide)

end Hydro
